import Mathlib

/-!
Verification of the changeset VS Code extension (`src/extension.js`,
security-hardened snapshot). The JavaScript functions are shallowly
embedded as pure Lean functions; JS strings are modelled as Lean
`String`s with `jsLength`/`jsTake` counting characters (the inputs the
claims exercise are ASCII, where JS UTF-16 lengths coincide with
character counts).
-/

namespace Changesets

/-- Length of a JS string (`s.length`), modelled as the character count. -/
def jsLength (s : String) : Nat := s.data.length

/-- First `n` characters of a JS string (`s.slice(0, n)` / buffer truncation). -/
def jsTake (n : Nat) (s : String) : String := String.mk (s.data.take n)

/-- JS `s.startsWith(pre)`. -/
def jsStartsWith (s pre : String) : Bool := List.isPrefixOf pre.data s.data

/-- Splits a character list on a separator character, JS `s.split(sep)` /
the segment decomposition used by the Node path routines. -/
def splitCharList (sep : Char) : List Char → List Char → List (List Char)
  | [], acc => [acc.reverse]
  | c :: rest, acc =>
    if c = sep then acc.reverse :: splitCharList sep rest []
    else splitCharList sep rest (c :: acc)

/-- Path segments of a string, split on `'/'`. -/
def splitPath (s : String) : List String :=
  (splitCharList '/' s.data []).map String.mk

/-- Node `path.posix.isAbsolute`: the first character is `'/'`. -/
def isAbsolutePath (s : String) : Bool :=
  match s.data with
  | '/' :: _ => true
  | _ => false

/-- One step of Node's `normalizeString` segment stack: `""` and `"."`
are dropped, `".."` pops a segment (or, above the root of a relative
path, is kept when `allowAboveRoot`), anything else is pushed. The stack
is kept in reverse order (head = most recent segment). -/
def normStep (allowAboveRoot : Bool) (stack : List String) (seg : String) : List String :=
  if seg = "" || seg = "." then stack
  else if seg = ".." then
    match stack with
    | [] => if allowAboveRoot then [".."] else []
    | top :: rest => if top = ".." then (if allowAboveRoot then ".." :: stack else stack) else rest
  else seg :: stack

/-- Node `normalizeString(path, allowAboveRoot)`: the normalized segment
list, in order. -/
def normalizeSegments (allowAboveRoot : Bool) (s : String) : List String :=
  ((splitPath s).foldl (normStep allowAboveRoot) []).reverse

/-- Joins segments with `'/'`, as a character list. -/
def joinWithSlash : List String → List Char
  | [] => []
  | [seg] => seg.data
  | seg :: rest => seg.data ++ '/' :: joinWithSlash rest

/-- Node `path.posix.normalize`: resolves `"."` and `".."` segments,
collapses repeated separators, preserves a trailing separator. -/
def posixNormalize (s : String) : String :=
  if s.data = [] then "."
  else
    let isAbs := isAbsolutePath s
    let trailingSeparator := s.data.getLast? = some '/'
    let core := joinWithSlash (normalizeSegments (!isAbs) s)
    if core = [] then
      if isAbs then "/" else if trailingSeparator then "./" else "."
    else
      let withTrail := if trailingSeparator then core ++ ['/'] else core
      if isAbs then String.mk ('/' :: withTrail) else String.mk withTrail

/-- One step of Node `path.posix.resolve`'s right-to-left accumulation:
once an absolute segment has been found the remaining arguments are
ignored; empty arguments are skipped. -/
def resolveStep (st : String × Bool) (p : String) : String × Bool :=
  if st.2 then st
  else if p = "" then st
  else (p ++ "/" ++ st.1, isAbsolutePath p)

/-- Node `path.posix.resolve(...args)` with the process working directory
`cwd` supplied explicitly (used when no argument is absolute). -/
def posixResolveList (cwd : String) (args : List String) : String :=
  let st := args.reverse.foldl resolveStep ("", false)
  let st := if st.2 then st else (cwd ++ "/" ++ st.1, isAbsolutePath cwd)
  let core := joinWithSlash (normalizeSegments (!st.2) st.1)
  if st.2 then String.mk ('/' :: core)
  else if core = [] then "." else String.mk core

/-- Node `path.resolve(base)` (one argument). -/
def posixResolveOne (cwd base : String) : String := posixResolveList cwd [base]

/-- Node `path.resolve(base, p)` (two arguments). -/
def posixResolveTwo (cwd base p : String) : String := posixResolveList cwd [base, p]

/-- A JavaScript value as far as `validateAndSanitizePath`'s input checks
can distinguish it: `null`/`undefined`, a string, or any other
non-string value (all of which fail the `typeof` check or the
truthiness check). -/
inductive JSValue where
  | vnull
  | vstr (s : String)
  | vother
deriving DecidableEq

/-- `validateAndSanitizePath(inputPath, basePath)` from `src/extension.js`:
rejects non-strings and the empty string, normalizes the input, resolves
it against `basePath`, and accepts only when the resolved path starts
(as a string) with `path.resolve(basePath)`. `cwd` is the process
working directory consulted by Node's `path.resolve`. -/
def validateAndSanitizePath (cwd : String) (inputPath : JSValue) (basePath : String) : Option String :=
  match inputPath with
  | .vnull => none
  | .vother => none
  | .vstr s =>
    if s = "" then none
    else
      let normalizedPath := posixNormalize s
      let resolvedPath := posixResolveTwo cwd basePath normalizedPath
      if jsStartsWith resolvedPath (posixResolveOne cwd basePath) then some resolvedPath
      else none

/-- The spec's notion of path descendancy (claim C1's "descendant of
`resolve(b)`"): the path equals the base or lies strictly below it. -/
def specIsDescendantOf (p base : String) : Bool :=
  p = base || jsStartsWith p (base ++ "/")

/-- First character admitted by the package-name regex
`^[a-zA-Z0-9@][a-zA-Z0-9@._-]*$`. -/
def isPkgStartChar (c : Char) : Bool := c.isAlphanum || c = '@'

/-- Subsequent characters admitted by the package-name regex. -/
def isPkgChar (c : Char) : Bool :=
  c.isAlphanum || c = '@' || c = '.' || c = '_' || c = '-'

/-- The test of the regex `/^[a-zA-Z0-9@][a-zA-Z0-9@._-]*$/` from
`isValidPackageName`. -/
def packageNameRegexTest (s : String) : Bool :=
  match s.data with
  | [] => false
  | c :: rest => isPkgStartChar c && rest.all isPkgChar

/-- `isValidPackageName(packageName)` from `src/extension.js`: a falsy
(empty) or non-string value is rejected, otherwise the regex must match
and the length must be at most 214. -/
def isValidPackageName (s : String) : Bool :=
  if s = "" then false
  else packageNameRegexTest s && decide (jsLength s ≤ 214)

/-- `isValidBumpType(bumpType)` from `src/extension.js`:
`['major', 'minor', 'patch'].includes(bumpType)`. -/
def isValidBumpType (bumpType : String) : Bool :=
  ["major", "minor", "patch"].contains bumpType

/-- A whitespace character removed by JS `String.prototype.trim` (the
ASCII portion; the exotic Unicode space characters never occur in the
claims' inputs). -/
def isJsSpace (c : Char) : Bool :=
  c = ' ' || c = '\t' || c = '\n' || c = '\r' || c = '\x0b' || c = '\x0c'

/-- JS `s.trim()`. -/
def jsTrim (s : String) : String :=
  String.mk (((s.data.dropWhile isJsSpace).reverse.dropWhile isJsSpace).reverse)

/-- The test of the regex `/^[A-Za-z0-9]{20,100}$/` from `isValidApiKey`. -/
def apiKeyRegexTest (t : String) : Bool :=
  t.data.all Char.isAlphanum && decide (20 ≤ jsLength t) && decide (jsLength t ≤ 100)

/-- `isValidApiKey(apiKey)` from `src/extension.js`: a falsy (empty) or
non-string value is rejected, otherwise the trimmed key must match
`^[A-Za-z0-9]{20,100}$`. -/
def isValidApiKey (apiKey : String) : Bool :=
  if apiKey = "" then false else apiKeyRegexTest (jsTrim apiKey)

/-- JS `s.replace(pattern, repl)` for a single-character global pattern:
every occurrence of `pattern` is replaced by `repl`. -/
def charReplace (pattern : Char) (repl : List Char) : List Char → List Char
  | [] => []
  | c :: rest => (if c = pattern then repl else [c]) ++ charReplace pattern repl rest

/-- `escapeYamlValue(value)` from `src/extension.js` on string input:
`value.replace(/"/g, '\\"').replace(/\n/g, '\\n').replace(/\r/g, '\\r')`. -/
def escapeYamlValue (value : String) : String :=
  String.mk (charReplace '\r' ['\\', 'r']
    (charReplace '\n' ['\\', 'n']
      (charReplace '"' ['\\', '"'] value.data)))

end Changesets

namespace Changesets

/-- C1 counterexample: `validateAndSanitizePath` accepts the input
`"../workspace"` against base `"/work"` and returns `"/workspace"`,
which is not a descendant of `resolve("/work")` — the `startsWith`
check matches on the raw string prefix, not on path components. -/
theorem C1_counterexample :
    validateAndSanitizePath "/" (.vstr "../workspace") "/work" = some "/workspace" ∧
    specIsDescendantOf "/workspace" (posixResolveOne "/" "/work") = false := by
  decide

/-- C1 (amended): `validateAndSanitizePath` rejects null, non-string and
empty input; every path it returns has `resolve(basePath)` as a string
prefix (but not necessarily as a path-component ancestor); and
`confine("../../etc/passwd", "/work")` rejects. -/
theorem C1_path_confinement :
    (∀ cwd b, validateAndSanitizePath cwd .vnull b = none) ∧
    (∀ cwd b, validateAndSanitizePath cwd .vother b = none) ∧
    (∀ cwd b, validateAndSanitizePath cwd (.vstr "") b = none) ∧
    (∀ cwd p b,
      Option.all (fun r => jsStartsWith r (posixResolveOne cwd b))
        (validateAndSanitizePath cwd (.vstr p) b) = true) ∧
    validateAndSanitizePath "/" (.vstr "../../etc/passwd") "/work" = none := by
  refine ⟨fun _ _ => rfl, fun _ _ => rfl, fun _ _ => rfl, ?_, by decide⟩
  intro cwd p b
  by_cases hp : p = ""
  · simp [validateAndSanitizePath, hp]
  · simp only [validateAndSanitizePath, if_neg hp]
    by_cases hs : jsStartsWith (posixResolveTwo cwd b (posixNormalize p)) (posixResolveOne cwd b) = true
    · simp [hs, Option.all]
    · simp [Bool.not_eq_true] at hs
      simp [hs, Option.all]

/-- C2 counterexample: the scoped identifier `"@scope/pkg-name"` is
rejected by `isValidPackageName` — the regex
`^[a-zA-Z0-9@][a-zA-Z0-9@._-]*$` has no `/`. The claim asserts it is
valid. -/
theorem C2_counterexample : isValidPackageName "@scope/pkg-name" = false := by decide

/-- C2 (amended): `isValidPackageName(s)` is true for every non-empty
string of at most 214 characters whose first character is alphanumeric
or `@` and whose remaining characters are alphanumerics, `@`, `.`, `_`
or `-`; the grammar contains no `/`, so `"@scope/pkg-name"` is invalid,
and any string containing a space or starting with an invalid character
(such as `"pkg name"` and `"../evil"`) is invalid. -/
theorem C2_package_name_grammar :
    (∀ s c rest, s.data = c :: rest → isPkgStartChar c = true →
      rest.all isPkgChar = true → jsLength s ≤ 214 → isValidPackageName s = true) ∧
    (∀ s, ' ' ∈ s.data → isValidPackageName s = false) ∧
    (∀ s c rest, s.data = c :: rest → isPkgStartChar c = false →
      isValidPackageName s = false) ∧
    isValidPackageName "@scope" = true ∧
    isValidPackageName "@scope/pkg-name" = false ∧
    isValidPackageName "../evil" = false ∧
    isValidPackageName "pkg name" = false := by
  refine ⟨?_, ?_, ?_, by decide, by decide, by decide, by decide⟩
  · intro s c rest h h1 h2 h3
    have hne : s ≠ "" := by
      intro he
      rw [he] at h
      exact List.noConfusion h
    simp only [isValidPackageName, packageNameRegexTest, if_neg hne, h, h1, h2,
      Bool.true_and, Bool.and_true, decide_eq_true_eq]
    exact h3
  · intro s hs
    by_cases hne : s = ""
    · subst hne
      exact absurd hs (by simp)
    · simp only [isValidPackageName, if_neg hne, Bool.and_eq_false_iff]
      left
      cases hd : s.data with
      | nil => exact absurd (String.ext hd) hne
      | cons c rest =>
        rw [hd] at hs
        simp only [packageNameRegexTest, hd, Bool.and_eq_false_iff]
        rcases List.mem_cons.mp hs with hc | hc
        · left
          rw [← hc]
          decide
        · right
          cases hall : rest.all isPkgChar
          · rfl
          · have := List.all_eq_true.mp hall ' ' hc
            exact absurd this (by decide)
  · intro s c rest h h1
    have hne : s ≠ "" := by
      intro he
      rw [he] at h
      exact List.noConfusion h
    simp only [isValidPackageName, if_neg hne, packageNameRegexTest, h, h1,
      Bool.false_and, Bool.and_eq_false_iff]


/-- Witness for C2: the theorem applied at the concrete scoped name
`"@scope"`. -/
theorem C2_witness : isValidPackageName "@scope" = true :=
  C2_package_name_grammar.1 "@scope" '@' "scope".data rfl (by decide) (by decide) (by decide)

/-- A parsed AI reply as far as `getAIChangesetSuggestion`'s validation
inspects it: the `bumps` object is modelled by its entry list in
iteration order (`none` when the key is absent or its value falsy) and
`summary` by its string value (`none` when absent; the empty string is
falsy in the presence check, exactly as `!parsedResponse.summary`). -/
structure AIResponse where
  bumps : Option (List (String × String))
  summary : Option String
deriving DecidableEq

/-- The distinct terminal failures thrown by the validation block of
`getAIChangesetSuggestion` (src/extension.js lines 704-724). -/
inductive AIValidationError where
  | missingBumpsOrSummary
  | invalidPackageName (pkg : String)
  | invalidBumpType (bump : String)
  | summaryTooLong
deriving DecidableEq

/-- The `for (const [pkg, bump] of Object.entries(parsedResponse.bumps))`
loop: the first entry failing the package-name check or, after it, the
bump-type check aborts the whole validation. -/
def checkBumpEntries : List (String × String) → Option AIValidationError
  | [] => none
  | (pkg, bump) :: rest =>
    if !isValidPackageName pkg then some (.invalidPackageName pkg)
    else if !isValidBumpType bump then some (.invalidBumpType bump)
    else checkBumpEntries rest

/-- The structural validation of a parsed AI reply from
`getAIChangesetSuggestion`: presence (truthiness) of `bumps` and
`summary`, then the per-entry name/bump checks, then the summary length
bound; the first failure is terminal. -/
def validateAIResponse (r : AIResponse) : Except AIValidationError (List (String × String) × String) :=
  match r.bumps, r.summary with
  | some entries, some s =>
    if s = "" then .error .missingBumpsOrSummary
    else
      match checkBumpEntries entries with
      | some e => .error e
      | none =>
        if 1000 < jsLength s then .error .summaryTooLong
        else .ok (entries, s)
  | _, _ => .error .missingBumpsOrSummary

theorem checkBumpEntries_ne_none (entries : List (String × String)) (p bv : String)
    (hmem : (p, bv) ∈ entries)
    (hbad : isValidPackageName p = false ∨ isValidBumpType bv = false) :
    checkBumpEntries entries ≠ none := by
  induction entries with
  | nil => exact absurd hmem (List.not_mem_nil _)
  | cons head tail ih =>
    obtain ⟨q, c⟩ := head
    simp only [checkBumpEntries]
    rcases List.mem_cons.mp hmem with heq | htail
    · obtain ⟨hq, hc⟩ := Prod.mk.injEq .. ▸ heq
      subst hq
      subst hc
      rcases hbad with hbp | hbb
      · simp [hbp]
      · by_cases hq2 : isValidPackageName p = true
        · simp [hq2, hbb]
        · simp [Bool.not_eq_true] at hq2
          simp [hq2]
    · by_cases hq2 : isValidPackageName q = true <;>
        by_cases hc2 : isValidBumpType c = true <;>
        simp only [Bool.not_eq_true] at hq2 hc2 <;>
        simp [hq2, hc2]
      exact ih htail

theorem validateAIResponse_ok_inv (r : AIResponse)
    (out : List (String × String) × String)
    (h : validateAIResponse r = .ok out) :
    r.bumps = some out.1 ∧ r.summary = some out.2 ∧
      checkBumpEntries out.1 = none ∧ jsLength out.2 ≤ 1000 := by
  obtain ⟨ob, os⟩ := r
  cases ob with
  | none => simp [validateAIResponse] at h
  | some entries =>
    cases os with
    | none => simp [validateAIResponse] at h
    | some s =>
      simp only [validateAIResponse] at h
      by_cases hs : s = ""
      · simp [hs] at h
      · rw [if_neg hs] at h
        cases hc : checkBumpEntries entries with
        | some e => simp [hc] at h
        | none =>
          rw [hc] at h
          by_cases hlen : 1000 < jsLength s
          · rw [if_pos hlen] at h
            exact Except.noConfusion h
          · rw [if_neg hlen] at h
            have hout : (entries, s) = out := by
              injection h
            subst hout
            exact ⟨rfl, rfl, hc, Nat.le_of_not_lt hlen⟩

/-- C3: validation of a parsed AI reply is ordered and each failure is
terminal — a missing (or falsy) `bumps`/`summary` rejects before
anything else; any entry with an invalid package name rejects the whole
reply; any entry with an invalid bump value (such as `"huge"`) rejects
the whole reply even with a well-formed summary; an over-long summary
rejects; and an accepted reply carries exactly the full entry list, all
of whose names and bumps validated, with a summary of at most 1000
characters — never a partial application. -/
theorem C3_ai_reply_validation :
    (∀ r, (r.bumps = none ∨ r.summary = none) →
      validateAIResponse r = .error .missingBumpsOrSummary) ∧
    (∀ r entries p bv out, r.bumps = some entries → (p, bv) ∈ entries →
      isValidPackageName p = false → validateAIResponse r ≠ .ok out) ∧
    (∀ r entries p bv out, r.bumps = some entries → (p, bv) ∈ entries →
      isValidBumpType bv = false → validateAIResponse r ≠ .ok out) ∧
    (∀ r s out, r.summary = some s → 1000 < jsLength s →
      validateAIResponse r ≠ .ok out) ∧
    validateAIResponse ⟨some [("pkgA", "huge")], some "Fix bug"⟩ =
      .error (.invalidBumpType "huge") ∧
    validateAIResponse ⟨some [("pkg name", "huge")], some "A fine summary"⟩ =
      .error (.invalidPackageName "pkg name") ∧
    (∀ r out, validateAIResponse r = .ok out →
      r.bumps = some out.1 ∧ r.summary = some out.2 ∧
        checkBumpEntries out.1 = none ∧ jsLength out.2 ≤ 1000) := by
  refine ⟨?_, ?_, ?_, ?_, rfl, rfl, validateAIResponse_ok_inv⟩
  · intro r hmiss
    obtain ⟨ob, os⟩ := r
    rcases hmiss with hb | hs
    · cases os <;> simp_all [validateAIResponse]
    · cases ob <;> simp_all [validateAIResponse]
  · intro r entries p bv out hb hmem hbad h
    obtain ⟨hb', _, hnone, _⟩ := validateAIResponse_ok_inv r out h
    rw [hb] at hb'
    have : entries = out.1 := Option.some.inj hb'
    subst this
    exact checkBumpEntries_ne_none out.1 p bv hmem (Or.inl hbad) hnone
  · intro r entries p bv out hb hmem hbad h
    obtain ⟨hb', _, hnone, _⟩ := validateAIResponse_ok_inv r out h
    rw [hb] at hb'
    have : entries = out.1 := Option.some.inj hb'
    subst this
    exact checkBumpEntries_ne_none out.1 p bv hmem (Or.inr hbad) hnone
  · intro r s out hs hlen h
    obtain ⟨_, hs', _, hle⟩ := validateAIResponse_ok_inv r out h
    rw [hs] at hs'
    have : s = out.2 := Option.some.inj hs'
    subst this
    omega

/-- Witness for C3: the theorem's rejection clauses applied to concrete
replies, and its acceptance clause applied to a concrete valid reply. -/
theorem C3_witness :
    validateAIResponse ⟨some [("pkgA", "huge")], some "Fix bug"⟩ ≠
      .ok ([("pkgA", "huge")], "Fix bug") ∧
    validateAIResponse ⟨none, some "Fix bug"⟩ = .error .missingBumpsOrSummary :=
  ⟨C3_ai_reply_validation.2.2.1 ⟨some [("pkgA", "huge")], some "Fix bug"⟩
      [("pkgA", "huge")] "pkgA" "huge" ([("pkgA", "huge")], "Fix bug") rfl
      (List.mem_singleton.mpr rfl) (by decide),
   C3_ai_reply_validation.1 ⟨none, some "Fix bug"⟩ (Or.inl rfl)⟩

/-- `response.ok` of the `fetch` API: the HTTP status lies in the
200-299 range. -/
def responseOk (status : Nat) : Bool :=
  decide (200 ≤ status) && decide (status ≤ 299)

/-- The two distinct errors thrown by the `!response.ok` branch of
`getAIChangesetSuggestion`: the 403/400 branch (key cleared) and the
generic branch, each carrying the status code of its message. -/
inductive AIHttpError where
  | authFailed (status : Nat)
  | requestFailed (status : Nat)
deriving DecidableEq

/-- The HTTP status handling of `getAIChangesetSuggestion` (lines
680-688): on a non-ok response with status 403 or 400 the stored
credential is deleted before the error is thrown; any other non-ok
status throws an error carrying the status, leaving the credential
stored. The pair is (outcome, credential store afterwards). -/
def handleAIHttpStatus (status : Nat) (storedKey : Option String) :
    Except AIHttpError Unit × Option String :=
  if responseOk status then (.ok (), storedKey)
  else if status = 403 ∨ status = 400 then (.error (.authFailed status), none)
  else (.error (.requestFailed status), storedKey)

/-- C7: every non-success HTTP status with an authorization-indicating
code (403 or 400) deletes the stored credential and surfaces an error
carrying the status; every other non-success status surfaces a terminal
error carrying the status and leaves the credential untouched (and the
handler performs no retry — it produces a single terminal outcome). -/
theorem C7_http_failure_handling :
    (∀ status key, responseOk status = false → (status = 403 ∨ status = 400) →
      handleAIHttpStatus status key = (.error (.authFailed status), none)) ∧
    (∀ status key, responseOk status = false → ¬(status = 403 ∨ status = 400) →
      handleAIHttpStatus status key = (.error (.requestFailed status), key)) := by
  constructor
  · intro status key hok hauth
    simp [handleAIHttpStatus, hok, hauth]
  · intro status key hok hauth
    simp [handleAIHttpStatus, hok, hauth]

/-- Witness for C7: a 403 clears the stored key; a 500 keeps it. -/
theorem C7_witness :
    handleAIHttpStatus 403 (some "storedKeyValue") = (.error (.authFailed 403), none) ∧
    handleAIHttpStatus 500 (some "storedKeyValue") =
      (.error (.requestFailed 500), some "storedKeyValue") :=
  ⟨C7_http_failure_handling.1 403 (some "storedKeyValue") (by decide) (Or.inl rfl),
   C7_http_failure_handling.2 500 (some "storedKeyValue") (by decide) (by decide)⟩

/-- Outcome of the key-entry branch of `getAIChangesetSuggestion` when no
credential is stored yet (lines 599-617). -/
inductive ApiKeyEntryOutcome where
  | missingKey
  | invalidFormat
  | accepted (key : String)
deriving DecidableEq

/-- The key-entry branch of `getAIChangesetSuggestion`: a cancelled or
empty input box is "API Key is required"; a truthy entry failing
`isValidApiKey` is rejected with nothing stored; a valid entry is
stored as entered. The pair is (outcome, secret storage afterwards,
starting from empty). -/
def handleEnteredApiKey (entered : Option String) : ApiKeyEntryOutcome × Option String :=
  match entered with
  | none => (.missingKey, none)
  | some k =>
    if k = "" then (.missingKey, none)
    else if !isValidApiKey k then (.invalidFormat, none)
    else (.accepted k, some k)

/-- C8: a newly entered credential is stored only when `isValidApiKey`
holds of it, i.e. when its trimmed form matches `^[A-Za-z0-9]{20,100}$`;
any entry failing the format check (such as the 10-character
`"abcde12345"`) is rejected with the secret storage left unchanged
(empty). -/
theorem C8_api_key_format_gate :
    (∀ entered k, (handleEnteredApiKey entered).2 = some k →
      entered = some k ∧ isValidApiKey k = true ∧ apiKeyRegexTest (jsTrim k) = true) ∧
    (∀ k, isValidApiKey k = false → (handleEnteredApiKey (some k)).2 = none) ∧
    handleEnteredApiKey (some "abcde12345") = (.invalidFormat, none) := by
  refine ⟨?_, ?_, by decide⟩
  · intro entered k h
    cases entered with
    | none => simp [handleEnteredApiKey] at h
    | some e =>
      simp only [handleEnteredApiKey] at h
      by_cases he : e = ""
      · simp [he] at h
      · rw [if_neg he] at h
        by_cases hv : isValidApiKey e = true
        · simp only [hv, Bool.not_true, Bool.false_eq_true, if_false] at h
          have hek : e = k := Option.some.inj h
          subst hek
          refine ⟨rfl, hv, ?_⟩
          simpa [isValidApiKey, if_neg he] using hv
        · simp [Bool.not_eq_true] at hv
          simp [hv] at h
  · intro k hv
    by_cases hk : k = ""
    · simp [handleEnteredApiKey, hk]
    · simp [handleEnteredApiKey, hk, hv]

/-- Witness for C8: the theorem applied to a stored 20-character key and
to the rejected 10-character key. -/
theorem C8_witness :
    (some "ABCDEFGHIJKLMNOPQRST" : Option String) = some "ABCDEFGHIJKLMNOPQRST" ∧
    isValidApiKey "ABCDEFGHIJKLMNOPQRST" = true ∧
    (handleEnteredApiKey (some "abcde12345")).2 = none :=
  ⟨(C8_api_key_format_gate.1 (some "ABCDEFGHIJKLMNOPQRST") "ABCDEFGHIJKLMNOPQRST"
      (by decide)).1,
   (C8_api_key_format_gate.1 (some "ABCDEFGHIJKLMNOPQRST") "ABCDEFGHIJKLMNOPQRST"
      (by decide)).2.1,
   C8_api_key_format_gate.2.1 "abcde12345" (by decide)⟩

theorem data_mk (l : List Char) : (String.mk l).data = l := rfl

theorem eq_empty_iff_data (s : String) : s = "" ↔ s.data = [] :=
  ⟨fun h => h ▸ rfl, fun h => String.ext h⟩

theorem jsLength_jsTake (n : Nat) (s : String) : jsLength (jsTake n s) = min n (jsLength s) := by
  simp [jsTake, jsLength, data_mk, List.length_take]

theorem jsTake_ne_empty (n : Nat) (s : String) (hn : 0 < n) (hs : s ≠ "") :
    jsTake n s ≠ "" := by
  intro he
  have hd : (jsTake n s).data = [] := (eq_empty_iff_data _).mp he
  have h0 : jsLength (jsTake n s) = 0 := by simp [jsLength, hd]
  have hpos : 0 < jsLength s := by
    rcases Nat.eq_zero_or_pos (jsLength s) with h | h
    · exact absurd ((eq_empty_iff_data s).mpr (List.length_eq_zero.mp h)) hs
    · exact h
  rw [jsLength_jsTake] at h0
  omega

/-- The failure outcomes of `getStagedGitDiff` (src/extension.js lines
742-772): invalid working directory, "Failed to get staged changes"
(tool failed with no output), and "Git diff is too large (over 10MB)". -/
inductive DiffError where
  | invalidWorkingDirectory
  | gitDiffFailed
  | diffTooLarge
deriving DecidableEq

/-- The callback body of `getStagedGitDiff`: a truthy `error` with empty
`stdout` rejects; a non-empty `stdout` longer than `10 * 1024 * 1024`
rejects as too large; otherwise the received `stdout` resolves. -/
def gitDiffCallback (error : Bool) (stdout : String) : Except DiffError String :=
  if error = true ∧ stdout = "" then .error .gitDiffFailed
  else if stdout ≠ "" ∧ 10 * 1024 * 1024 < jsLength stdout then .error .diffTooLarge
  else .ok stdout

/-- Model of the external-process collaborator (spec section 6) as Node's
`child_process.exec` documents it for the `maxBuffer` option used at the
call site: when the tool's raw output exceeds `maxBuffer` the child is
terminated, the delivered stdout is truncated to exactly `maxBuffer`
characters, and the callback receives an error; otherwise the exit
status and full output are delivered unchanged. -/
def execCapped (maxBuffer : Nat) (exitFailed : Bool) (rawOut : String) : Bool × String :=
  if maxBuffer < jsLength rawOut then (true, jsTake maxBuffer rawOut)
  else (exitFailed, rawOut)

/-- `getStagedGitDiff(cwd)` composed with the exec collaborator: the
working directory is confined against `process.cwd()` (`procCwd`), then
`git diff --staged` runs with `maxBuffer: 10 * 1024 * 1024`; `exitFailed`
and `rawOut` are the tool's exit status and raw output. -/
def getStagedGitDiff (procCwd cwd : String) (exitFailed : Bool) (rawOut : String) :
    Except DiffError String :=
  match validateAndSanitizePath procCwd (.vstr cwd) procCwd with
  | none => .error .invalidWorkingDirectory
  | some _ =>
    let st := execCapped (10 * 1024 * 1024) exitFailed rawOut
    gitDiffCallback st.1 st.2

theorem gitDiffCallback_ok_of_nonempty_small (stdout : String) (e : Bool)
    (hne : stdout ≠ "") (hle : jsLength stdout ≤ 10 * 1024 * 1024) :
    gitDiffCallback e stdout = .ok stdout := by
  simp only [gitDiffCallback]
  rw [if_neg (fun h => hne h.2)]
  rw [if_neg (fun h => absurd h.2 (by omega))]

theorem getStagedGitDiff_overflow (exitFailed : Bool) (rawOut : String)
    (h : 10 * 1024 * 1024 < jsLength rawOut) :
    getStagedGitDiff "/" "/" exitFailed rawOut = .ok (jsTake (10 * 1024 * 1024) rawOut) := by
  have hval : validateAndSanitizePath "/" (.vstr "/") "/" = some "/" := by decide
  simp only [getStagedGitDiff, hval, execCapped, if_pos h]
  have hlen : jsLength (jsTake (10 * 1024 * 1024) rawOut) = 10 * 1024 * 1024 := by
    rw [jsLength_jsTake]
    omega
  have hne : jsTake (10 * 1024 * 1024) rawOut ≠ "" := by
    refine jsTake_ne_empty _ _ (by omega) ?_
    intro he
    rw [he] at h
    exact absurd h (by decide)
  exact gitDiffCallback_ok_of_nonempty_small _ _ hne (le_of_eq hlen)

/-- A staged diff one character over the 10MB ceiling. -/
def bigStagedDiff : String := String.mk (List.replicate (10 * 1024 * 1024 + 1) 'a')

/-- C5 (code bug): a staged diff exceeding the 10MB ceiling is NOT
rejected as "too large" — `exec`'s `maxBuffer` is the very same
`10 * 1024 * 1024`, so the callback receives stdout truncated to exactly
10MB together with an error, the non-empty-output tolerance skips the
rejection, the strict `> 10MB` size check cannot fire, and the call
resolves with silently truncated output. Evaluated at a diff of
10MB + 1 characters. -/
theorem C5_oversized_diff_truncated :
    getStagedGitDiff "/" "/" false bigStagedDiff =
      .ok (jsTake (10 * 1024 * 1024) bigStagedDiff) ∧
    jsLength bigStagedDiff = 10 * 1024 * 1024 + 1 ∧
    jsTake (10 * 1024 * 1024) bigStagedDiff ≠ bigStagedDiff := by
  have hlen : jsLength bigStagedDiff = 10 * 1024 * 1024 + 1 := by
    simp only [bigStagedDiff, jsLength, data_mk, List.length_replicate]
  refine ⟨getStagedGitDiff_overflow false bigStagedDiff (by omega), hlen, ?_⟩
  intro he
  have h2 := congrArg jsLength he
  rw [jsLength_jsTake, hlen] at h2
  omega

/-- C6: for every invocation whose working directory passes confinement,
a tool failure with no output is a hard rejection, while a tool failure
that produced non-empty output still resolves with the captured
(possibly capped) output. -/
theorem C6_diff_failure_tolerance :
    ∀ procCwd cwd vp exitFailed rawOut,
      validateAndSanitizePath procCwd (.vstr cwd) procCwd = some vp →
      ((rawOut = "" → exitFailed = true →
          getStagedGitDiff procCwd cwd exitFailed rawOut = .error .gitDiffFailed) ∧
        (rawOut ≠ "" → exitFailed = true →
          getStagedGitDiff procCwd cwd exitFailed rawOut =
            .ok ((execCapped (10 * 1024 * 1024) exitFailed rawOut).2))) := by
  intro procCwd cwd vp exitFailed rawOut hval
  constructor
  · intro h0 hf
    subst h0
    subst hf
    simp [getStagedGitDiff, hval, execCapped, gitDiffCallback, jsLength]
  · intro hne hf
    subst hf
    simp only [getStagedGitDiff, hval]
    by_cases hb : 10 * 1024 * 1024 < jsLength rawOut
    · simp only [execCapped, if_pos hb]
      have hlen : jsLength (jsTake (10 * 1024 * 1024) rawOut) = 10 * 1024 * 1024 := by
        rw [jsLength_jsTake]
        omega
      exact gitDiffCallback_ok_of_nonempty_small _ _
        (jsTake_ne_empty _ _ (by omega) hne) (le_of_eq hlen)
    · simp only [execCapped, if_neg hb]
      exact gitDiffCallback_ok_of_nonempty_small _ _ hne (Nat.le_of_not_lt hb)

/-- Witness for C6: a failing tool with empty output rejects; a failing
tool with the non-empty output `"warning output"` resolves with it. -/
theorem C6_witness :
    getStagedGitDiff "/" "/" true "" = .error .gitDiffFailed ∧
    getStagedGitDiff "/" "/" true "warning output" =
      .ok ((execCapped (10 * 1024 * 1024) true "warning output").2) :=
  ⟨(C6_diff_failure_tolerance "/" "/" "/" true "" (by decide)).1 rfl rfl,
   (C6_diff_failure_tolerance "/" "/" "/" true "warning output" (by decide)).2
      (by decide) rfl⟩

/-- The failures thrown by the serialization loop of
`createChangesetFile` (src/extension.js lines 955-976). -/
inductive WriterError where
  | invalidPackageName (pkg : String)
  | invalidBumpType (bump : String)
deriving DecidableEq

/-- One metadata line of the changeset header, without its newline:
`"escapedPkg": escapedBump`. -/
def changesetHeaderLine (pkg bump : String) : String :=
  "\"" ++ escapeYamlValue pkg ++ "\": " ++ escapeYamlValue bump

/-- The `for (const [pkg, bump] of Object.entries(packagesWithBumps))`
loop of `createChangesetFile`: each entry is re-validated and then
serialized as one escaped header line; the first invalid entry aborts
the whole write. -/
def buildBumpLines : List (String × String) → Except WriterError String
  | [] => .ok ""
  | (pkg, bump) :: rest =>
    if !isValidPackageName pkg then .error (.invalidPackageName pkg)
    else if !isValidBumpType bump then .error (.invalidBumpType bump)
    else
      match buildBumpLines rest with
      | .error e => .error e
      | .ok s => .ok (changesetHeaderLine pkg bump ++ "\n" ++ s)

/-- The content built by `createChangesetFile` (`summary || ''` is the
identity on strings): the header block between two `---` delimiter
lines, a blank separator line, and the escaped summary with a trailing
newline. The path-confinement and file-name generation preamble of the
function is modelled separately by `validateAndSanitizePath`. -/
def createChangesetContent (packagesWithBumps : List (String × String)) (summary : String) :
    Except WriterError String :=
  match buildBumpLines packagesWithBumps with
  | .error e => .error e
  | .ok mid => .ok ("---\n" ++ mid ++ "---\n\n" ++ escapeYamlValue summary ++ "\n")

/-- The header block the loop produces when every entry validates, one
line per entry in iteration order. -/
def changesetBody : List (String × String) → String
  | [] => ""
  | (pkg, bump) :: rest => changesetHeaderLine pkg bump ++ "\n" ++ changesetBody rest

theorem buildBumpLines_ok_of_valid (entries : List (String × String))
    (h : ∀ p b, (p, b) ∈ entries → isValidPackageName p = true ∧ isValidBumpType b = true) :
    buildBumpLines entries = .ok (changesetBody entries) := by
  induction entries with
  | nil => rfl
  | cons head tail ih =>
    obtain ⟨p, b⟩ := head
    obtain ⟨hp, hb⟩ := h p b (List.mem_cons_self _ _)
    simp only [buildBumpLines, hp, hb, Bool.not_true, Bool.false_eq_true, if_false,
      ih (fun q c hm => h q c (List.mem_cons_of_mem _ hm))]
    rfl

theorem buildBumpLines_ok_inv (entries : List (String × String)) (mid : String)
    (h : buildBumpLines entries = .ok mid) :
    mid = changesetBody entries ∧
      ∀ p b, (p, b) ∈ entries → isValidPackageName p = true ∧ isValidBumpType b = true := by
  induction entries generalizing mid with
  | nil =>
    refine ⟨?_, by simp⟩
    have : ("" : String) = mid := by injection h
    exact this.symm
  | cons head tail ih =>
    obtain ⟨p, b⟩ := head
    simp only [buildBumpLines] at h
    by_cases hp : isValidPackageName p = true
    · by_cases hb : isValidBumpType b = true
      · simp only [hp, hb, Bool.not_true, Bool.false_eq_true, if_false] at h
        cases hr : buildBumpLines tail with
        | error e => rw [hr] at h; exact Except.noConfusion h
        | ok s =>
          rw [hr] at h
          obtain ⟨hs, hall⟩ := ih s hr
          have hmid : changesetHeaderLine p b ++ "\n" ++ s = mid := by injection h
          subst hs
          refine ⟨hmid.symm, ?_⟩
          intro q c hm
          rcases List.mem_cons.mp hm with heq | hm'
          · obtain ⟨h1, h2⟩ := Prod.mk.injEq .. ▸ heq
            subst h1
            subst h2
            exact ⟨hp, hb⟩
          · exact hall q c hm'
      · simp only [Bool.not_eq_true] at hb
        simp [hp, hb] at h
    · simp only [Bool.not_eq_true] at hp
      simp [hp] at h

theorem createChangesetContent_ok_inv (entries : List (String × String)) (summary content : String)
    (h : createChangesetContent entries summary = .ok content) :
    content = "---\n" ++ changesetBody entries ++ "---\n\n" ++ escapeYamlValue summary ++ "\n" ∧
      ∀ p b, (p, b) ∈ entries → isValidPackageName p = true ∧ isValidBumpType b = true := by
  simp only [createChangesetContent] at h
  cases hr : buildBumpLines entries with
  | error e => rw [hr] at h; exact Except.noConfusion h
  | ok mid =>
    rw [hr] at h
    obtain ⟨hmid, hall⟩ := buildBumpLines_ok_inv entries mid hr
    subst hmid
    have : "---\n" ++ changesetBody entries ++ "---\n\n" ++ escapeYamlValue summary ++ "\n" = content := by
      injection h
    exact ⟨this.symm, hall⟩

/-- C4: writing the bump map `{"pkgA": "minor"}` with summary `Fix bug`
produces exactly the content `---`, the single metadata line
`"pkgA": minor`, `---`, a blank line, and `Fix bug` with a trailing
newline; in general a validated bump map serializes to one escaped
`"package": level` line per entry in iteration order between the two
delimiter lines, followed by the blank line and the escaped summary. -/
theorem C4_changeset_serialization :
    createChangesetContent [("pkgA", "minor")] "Fix bug" =
      .ok "---\n\"pkgA\": minor\n---\n\nFix bug\n" ∧
    (∀ entries summary,
      (∀ p b, (p, b) ∈ entries → isValidPackageName p = true ∧ isValidBumpType b = true) →
      createChangesetContent entries summary =
        .ok ("---\n" ++ changesetBody entries ++ "---\n\n" ++ escapeYamlValue summary ++ "\n")) := by
  refine ⟨rfl, ?_⟩
  intro entries summary h
  simp only [createChangesetContent, buildBumpLines_ok_of_valid entries h]

/-- Witness for C4: the general serialization clause applied to the
concrete map `{"pkgA": "minor"}` and summary `Fix bug`. -/
theorem C4_witness :
    createChangesetContent [("pkgA", "minor")] "Fix bug" =
      .ok ("---\n" ++ changesetBody [("pkgA", "minor")] ++ "---\n\n" ++
        escapeYamlValue "Fix bug" ++ "\n") :=
  C4_changeset_serialization.2 [("pkgA", "minor")] "Fix bug" (by
    intro p b hm
    rw [List.mem_singleton] at hm
    obtain ⟨h1, h2⟩ := Prod.mk.injEq .. ▸ hm
    subst h1
    subst h2
    exact ⟨by decide, by decide⟩)

/-- The per-character effect of `escapeYamlValue`'s replacement chain:
`"` becomes `\"`, a newline becomes `\n`, a carriage return becomes
`\r`, everything else is unchanged. -/
def escChar (c : Char) : List Char :=
  if c = '"' then ['\\', '"']
  else if c = '\n' then ['\\', 'n']
  else if c = '\r' then ['\\', 'r']
  else [c]

/-- `escChar` mapped over a character list. -/
def escList : List Char → List Char
  | [] => []
  | c :: rest => escChar c ++ escList rest

theorem charReplace_append (pattern : Char) (repl : List Char) (a b : List Char) :
    charReplace pattern repl (a ++ b) = charReplace pattern repl a ++ charReplace pattern repl b := by
  induction a with
  | nil => rfl
  | cons c rest ih => simp [charReplace, ih]

theorem escapeYamlValue_data (s : String) : (escapeYamlValue s).data = escList s.data := by
  show charReplace '\r' ['\\', 'r'] (charReplace '\n' ['\\', 'n']
    (charReplace '"' ['\\', '"'] s.data)) = escList s.data
  induction s.data with
  | nil => rfl
  | cons c rest ih =>
    simp only [charReplace, escList, charReplace_append, ih]
    congr 1
    by_cases h1 : c = '"'
    · subst h1; rfl
    · by_cases h2 : c = '\n'
      · subst h2; rfl
      · by_cases h3 : c = '\r'
        · subst h3; rfl
        · simp [charReplace, escChar, h1, h2, h3]

theorem escChar_no_linebreak (c : Char) : '\n' ∉ escChar c ∧ '\r' ∉ escChar c := by
  by_cases h1 : c = '"'
  · subst h1; exact ⟨by decide, by decide⟩
  · by_cases h2 : c = '\n'
    · subst h2; exact ⟨by decide, by decide⟩
    · by_cases h3 : c = '\r'
      · subst h3; exact ⟨by decide, by decide⟩
      · simp only [escChar, h1, h2, h3, if_false]
        exact ⟨by simp [Ne.symm h2], by simp [Ne.symm h3]⟩

theorem escList_no_linebreak (l : List Char) : '\n' ∉ escList l ∧ '\r' ∉ escList l := by
  induction l with
  | nil => exact ⟨by simp [escList], by simp [escList]⟩
  | cons c rest ih =>
    obtain ⟨ih1, ih2⟩ := ih
    obtain ⟨hc1, hc2⟩ := escChar_no_linebreak c
    constructor
    · simp only [escList, List.mem_append]
      rintro (h | h)
      · exact hc1 h
      · exact ih1 h
    · simp only [escList, List.mem_append]
      rintro (h | h)
      · exact hc2 h
      · exact ih2 h

/-- Scans a character list; every `"` must be immediately preceded by a
backslash (`prev` is the character before the current position). -/
def nuqAux (prev : Char) : List Char → Bool
  | [] => true
  | c :: rest => (c != '"' || prev == '\\') && nuqAux c rest

/-- No unescaped double quote: every `"` in the list is immediately
preceded by `\` (a leading `"` counts as unescaped). -/
def noUnescapedQuote (l : List Char) : Bool := nuqAux 'a' l

theorem nuqAux_escList (l : List Char) : ∀ prev, nuqAux prev (escList l) = true := by
  induction l with
  | nil => intro prev; rfl
  | cons c rest ih =>
    intro prev
    by_cases h1 : c = '"'
    · subst h1
      simp [escList, escChar, nuqAux, ih]
    · by_cases h2 : c = '\n'
      · subst h2
        simp [escList, escChar, nuqAux, ih]
      · by_cases h3 : c = '\r'
        · subst h3
          simp [escList, escChar, nuqAux, ih]
        · simp [escList, escChar, nuqAux, h1, h2, h3, ih]

theorem escList_eq_of_no_backslash (l m : List Char) (hm : '\\' ∉ m)
    (h : escList l = m) : l = m := by
  induction l generalizing m with
  | nil => exact h ▸ rfl
  | cons c rest ih =>
    by_cases h1 : c = '"'
    · subst h1
      rw [show escList ('"' :: rest) = '\\' :: '"' :: escList rest from rfl] at h
      exact absurd (h ▸ List.mem_cons_self '\\' _) hm
    · by_cases h2 : c = '\n'
      · subst h2
        rw [show escList ('\n' :: rest) = '\\' :: 'n' :: escList rest from rfl] at h
        exact absurd (h ▸ List.mem_cons_self '\\' _) hm
      · by_cases h3 : c = '\r'
        · subst h3
          rw [show escList ('\r' :: rest) = '\\' :: 'r' :: escList rest from rfl] at h
          exact absurd (h ▸ List.mem_cons_self '\\' _) hm
        · have hstep : escList (c :: rest) = c :: escList rest := by
            simp [escList, escChar, h1, h2, h3]
          rw [hstep] at h
          cases m with
          | nil => exact List.noConfusion h
          | cons d m' =>
            obtain ⟨hd, ht⟩ := List.cons.injEq .. ▸ h
            subst hd
            rw [ih m' (fun hb => hm (List.mem_cons_of_mem _ hb)) ht]

/-- JS `content.split('\n')`, the line decomposition of a changeset
file's content. -/
def jsSplitNewlines (s : String) : List String :=
  (splitCharList '\n' s.data []).map String.mk

theorem splitCharList_no_sep (sep : Char) (a : List Char) (acc : List Char) (h : sep ∉ a) :
    splitCharList sep a acc = [acc.reverse ++ a] := by
  induction a generalizing acc with
  | nil => simp [splitCharList]
  | cons c rest ih =>
    have hc : c ≠ sep := fun he => h (he ▸ List.mem_cons_self c rest)
    simp only [splitCharList, if_neg hc]
    rw [ih (c :: acc) (fun hm => h (List.mem_cons_of_mem _ hm))]
    simp

theorem splitCharList_append_sep (sep : Char) (a b acc : List Char) (h : sep ∉ a) :
    splitCharList sep (a ++ sep :: b) acc = (acc.reverse ++ a) :: splitCharList sep b [] := by
  induction a generalizing acc with
  | nil => simp [splitCharList]
  | cons c rest ih =>
    have hc : c ≠ sep := fun he => h (he ▸ List.mem_cons_self c rest)
    simp only [List.cons_append, splitCharList, if_neg hc, List.append_eq]
    rw [ih (c :: acc) (fun hm => h (List.mem_cons_of_mem _ hm))]
    simp

theorem changesetHeaderLine_data (p b : String) :
    (changesetHeaderLine p b).data =
      '"' :: ((escapeYamlValue p).data ++ '"' :: ':' :: ' ' :: (escapeYamlValue b).data) := by
  simp [changesetHeaderLine, String.data_append]

theorem changesetHeaderLine_no_newline (p b : String) :
    '\n' ∉ (changesetHeaderLine p b).data := by
  rw [changesetHeaderLine_data]
  intro hm
  rcases List.mem_cons.mp hm with h | h
  · exact absurd h (by decide)
  · rcases List.mem_append.mp h with h | h
    · exact ((escapeYamlValue_data p ▸ escList_no_linebreak p.data).1) h
    · rcases List.mem_cons.mp h with h | h
      · exact absurd h (by decide)
      · rcases List.mem_cons.mp h with h | h
        · exact absurd h (by decide)
        · rcases List.mem_cons.mp h with h | h
          · exact absurd h (by decide)
          · exact ((escapeYamlValue_data b ▸ escList_no_linebreak b.data).1) h

theorem changesetHeaderLine_ne_dashes (p b : String) : changesetHeaderLine p b ≠ "---" := by
  intro h
  have hd := congrArg String.data h
  rw [changesetHeaderLine_data] at hd
  injection hd with h1 _
  exact absurd h1 (by decide)

theorem escapeYamlValue_ne_dashes (s : String) (h : s ≠ "---") : escapeYamlValue s ≠ "---" := by
  intro he
  apply h
  have hd := congrArg String.data he
  rw [escapeYamlValue_data] at hd
  exact String.ext (escList_eq_of_no_backslash s.data ("---" : String).data (by decide) hd)

theorem splitCharList_changesetBody (entries : List (String × String)) (rest : List Char) :
    splitCharList '\n' ((changesetBody entries).data ++ rest) [] =
      (entries.map fun pb => (changesetHeaderLine pb.1 pb.2).data) ++
        splitCharList '\n' rest [] := by
  induction entries with
  | nil => rfl
  | cons head tail ih =>
    obtain ⟨p, b⟩ := head
    have hd : (changesetBody ((p, b) :: tail)).data ++ rest =
        (changesetHeaderLine p b).data ++ '\n' :: ((changesetBody tail).data ++ rest) := by
      simp [changesetBody, String.data_append]
    rw [hd, splitCharList_append_sep '\n' _ _ [] (changesetHeaderLine_no_newline p b), ih]
    simp

theorem jsSplitNewlines_changesetContent (entries : List (String × String))
    (summary content : String) (h : createChangesetContent entries summary = .ok content) :
    jsSplitNewlines content =
      "---" :: (entries.map fun pb => changesetHeaderLine pb.1 pb.2) ++
        ["---", "", escapeYamlValue summary, ""] := by
  obtain ⟨hc, _⟩ := createChangesetContent_ok_inv entries summary content h
  subst hc
  show (splitCharList '\n'
      ("---\n" ++ changesetBody entries ++ "---\n\n" ++ escapeYamlValue summary ++ "\n").data
      []).map String.mk = _
  have hdata :
      ("---\n" ++ changesetBody entries ++ "---\n\n" ++ escapeYamlValue summary ++ "\n").data =
        ['-', '-', '-'] ++ '\n' :: ((changesetBody entries).data ++
          (['-', '-', '-'] ++ '\n' :: ([] ++ '\n' ::
            ((escapeYamlValue summary).data ++ '\n' :: [])))) := by
    simp [String.data_append]
  rw [hdata]
  rw [splitCharList_append_sep '\n' ['-', '-', '-'] _ [] (by decide)]
  rw [splitCharList_changesetBody]
  rw [splitCharList_append_sep '\n' ['-', '-', '-'] _ [] (by decide)]
  rw [splitCharList_append_sep '\n' [] _ [] (by decide)]
  rw [splitCharList_append_sep '\n' ((escapeYamlValue summary).data) [] []
    (escapeYamlValue_data summary ▸ (escList_no_linebreak summary.data).1)]
  show ((['-', '-', '-']) ::
    ((entries.map fun pb => (changesetHeaderLine pb.1 pb.2).data) ++
      (['-', '-', '-']) :: ([]) :: ((escapeYamlValue summary).data) :: [[]])).map String.mk = _
  simp only [List.map_cons, List.map_append, List.map_map]
  show "---" :: ((entries.map ((fun d => String.mk d) ∘ fun pb => (changesetHeaderLine pb.1 pb.2).data)) ++
    "---" :: "" :: String.mk ((escapeYamlValue summary).data) :: [""]) = _
  have hmk : ∀ s : String, String.mk s.data = s := fun _ => rfl
  simp only [Function.comp, hmk]
  rfl

/-- C10 counterexample: with the validated bump map `{"pkgA": "minor"}`
and the summary `---`, the writer's content has three lines equal to
`---`, not exactly two — the escaped summary itself forms a third
delimiter line after the metadata block. -/
theorem C10_counterexample :
    createChangesetContent [("pkgA", "minor")] "---" =
      .ok "---\n\"pkgA\": minor\n---\n\n---\n" ∧
    (jsSplitNewlines "---\n\"pkgA\": minor\n---\n\n---\n").count "---" = 3 := by
  exact ⟨rfl, by decide⟩

/-- C10 (amended): `escapeYamlValue` output contains no raw newline or
carriage-return character and no unescaped double quote; every content
the writer produces splits into the opening `---` line, exactly one
header line per mapping entry, the closing `---` line, a blank line, the
escaped summary line and the trailing empty segment — so package names
cannot inject delimiter lines, and the content has exactly two `---`
lines whenever the summary is not itself the literal `---` (a summary
equal to `---` contributes a third such line after the metadata block). -/
theorem C10_escape_and_delimiter_integrity :
    (∀ s, '\n' ∉ (escapeYamlValue s).data ∧ '\r' ∉ (escapeYamlValue s).data) ∧
    (∀ s, noUnescapedQuote (escapeYamlValue s).data = true) ∧
    (∀ entries summary content,
      createChangesetContent entries summary = .ok content →
      jsSplitNewlines content =
        "---" :: (entries.map fun pb => changesetHeaderLine pb.1 pb.2) ++
          ["---", "", escapeYamlValue summary, ""]) ∧
    (∀ entries summary content,
      createChangesetContent entries summary = .ok content → summary ≠ "---" →
      (jsSplitNewlines content).count "---" = 2) := by
  refine ⟨fun s => escapeYamlValue_data s ▸ escList_no_linebreak s.data,
    fun s => by rw [escapeYamlValue_data]; exact nuqAux_escList s.data 'a',
    jsSplitNewlines_changesetContent, ?_⟩
  intro entries summary content h hs
  rw [jsSplitNewlines_changesetContent entries summary content h]
  have hmap : (entries.map fun pb => changesetHeaderLine pb.1 pb.2).count "---" = 0 := by
    rw [List.count_eq_zero]
    intro hx
    obtain ⟨pb, _, hpb⟩ := List.mem_map.mp hx
    exact changesetHeaderLine_ne_dashes pb.1 pb.2 hpb
  have hesc : escapeYamlValue summary ≠ "---" := escapeYamlValue_ne_dashes summary hs
  simp only [List.count_cons, List.count_append, hmap, List.count_nil]
  simp [hesc, Ne.symm hesc]

/-- Witness for C10: the delimiter-count clause applied to the concrete
content written for `{"pkgA": "minor"}` with summary `Fix bug`. -/
theorem C10_witness :
    (jsSplitNewlines "---\n\"pkgA\": minor\n---\n\nFix bug\n").count "---" = 2 :=
  C10_escape_and_delimiter_integrity.2.2.2 [("pkgA", "minor")] "Fix bug"
    "---\n\"pkgA\": minor\n---\n\nFix bug\n" rfl (by decide)

/-- Node `path.posix.dirname`: everything before the last separator,
ignoring trailing separators; `"."` when there is no directory part,
`"/"` for paths directly under the root. -/
def posixDirname (s : String) : String :=
  match s.data with
  | [] => "."
  | l =>
    let hasRoot := l.head? = some '/'
    let r := (l.drop 1).reverse
    let r2 := r.dropWhile (fun c => c = '/')
    let r3 := r2.dropWhile (fun c => c ≠ '/')
    match r3 with
    | [] => if hasRoot then "/" else "."
    | _ =>
      if hasRoot ∧ r3.length = 1 then "//" else String.mk (l.take r3.length)

/-- The fields of a parsed `package.json` that `findPackages` inspects:
the `name` value (`none` when absent; the empty string is falsy) and the
`private` flag. -/
structure ManifestJson where
  name : Option String
  isPrivate : Bool
deriving DecidableEq

/-- One `package.json` hit of the workspace glob: its filesystem path
and its parse result (`none` when reading or parsing failed — such
files are skipped). -/
structure FoundFile where
  fsPath : String
  manifest : Option ManifestJson
deriving DecidableEq

/-- The body of `findPackages`'s `for (const file of packageJsonPaths)`
loop: a parsed manifest with a truthy, public, valid name contributes
`{name, path: dirname(file.fsPath)}` provided its directory passes
confinement against the validated root. -/
def scanStep (cwd validatedRootPath : String) (acc : List (String × String))
    (f : FoundFile) : List (String × String) :=
  match f.manifest with
  | none => acc
  | some j =>
    match j.name with
    | none => acc
    | some nm =>
      if nm ≠ "" && !j.isPrivate && isValidPackageName nm then
        match validateAndSanitizePath cwd (.vstr (posixDirname f.fsPath)) validatedRootPath with
        | some validatedPackagePath => acc ++ [(nm, validatedPackagePath)]
        | none => acc
      else acc

/-- The scan phase of `findPackages` over the glob hits, in discovery
order. -/
def scanPackages (cwd validatedRootPath : String) (files : List FoundFile) :
    List (String × String) :=
  files.foldl (scanStep cwd validatedRootPath) []

/-- The root-manifest phase of `findPackages`: when the root
`package.json` exists, parses, and carries a truthy, public, valid name
not already present in the list, its package is `unshift`ed to the
front. -/
def addRootPackage (validatedRootPath : String) (rootManifest : Option ManifestJson)
    (packages : List (String × String)) : List (String × String) :=
  match rootManifest with
  | none => packages
  | some j =>
    match j.name with
    | none => packages
    | some nm =>
      if nm ≠ "" && !j.isPrivate && isValidPackageName nm &&
          !(packages.any (fun p => p.1 == nm)) then
        (nm, validatedRootPath) :: packages
      else packages

/-- `findPackages(rootPath)` from `src/extension.js`: the root path is
confined against `process.cwd()` (`cwd`), at most 1000 manifests are
processed, the glob hits are scanned in order, and the root manifest's
package (supplied as `rootManifest`; `none` when absent or unparsable)
is prepended when its name is new. -/
def findPackages (cwd rootPath : String) (files : List FoundFile)
    (rootManifest : Option ManifestJson) : Except String (List (String × String)) :=
  match validateAndSanitizePath cwd (.vstr rootPath) cwd with
  | none => .error "Invalid root path"
  | some validatedRootPath =>
    if 1000 < files.length then
      .error "Too many package.json files found. Please check your workspace structure."
    else
      .ok (addRootPackage validatedRootPath rootManifest
        (scanPackages cwd validatedRootPath files))

/-- C9 counterexample: two manifests declaring the same public name
`"foo"` in different directories both appear in the discovery result —
the scan loop never de-duplicates among its own hits (only the root
package is checked against the list), so discovery does not guarantee
that no two packages share a name. -/
theorem C9_counterexample :
    findPackages "/" "/work"
      [⟨"/work/a/package.json", some ⟨some "foo", false⟩⟩,
       ⟨"/work/b/package.json", some ⟨some "foo", false⟩⟩] none =
      .ok [("foo", "/work/a"), ("foo", "/work/b")] ∧
    ¬ (([("foo", "/work/a"), ("foo", "/work/b")].map Prod.fst).Nodup) := by
  exact ⟨rfl, by decide⟩

/-- C9 (amended): discovery is deterministic — running it twice on the
same tree yields the same sequence — and the root manifest's package
(when present, public, and validly named) is prepended first exactly
when its name is not already among the scanned entries, and is
suppressed when the name is already present (so the root package never
introduces a duplicate); scanned entries themselves keep discovery order
and are not de-duplicated by name. -/
theorem C9_discovery_root_dedup :
    (∀ cwd rootPath files rootManifest,
      findPackages cwd rootPath files rootManifest =
        findPackages cwd rootPath files rootManifest) ∧
    (∀ cwd rootPath vroot files j nm,
      validateAndSanitizePath cwd (.vstr rootPath) cwd = some vroot →
      files.length ≤ 1000 →
      j.name = some nm → nm ≠ "" → j.isPrivate = false → isValidPackageName nm = true →
      (((scanPackages cwd vroot files).any (fun p => p.1 == nm) = false →
        findPackages cwd rootPath files (some j) =
          .ok ((nm, vroot) :: scanPackages cwd vroot files)) ∧
       ((scanPackages cwd vroot files).any (fun p => p.1 == nm) = true →
        findPackages cwd rootPath files (some j) =
          .ok (scanPackages cwd vroot files)))) := by
  refine ⟨fun _ _ _ _ => rfl, ?_⟩
  intro cwd rootPath vroot files j nm hval hlen hname hnm hpriv hvalid
  obtain ⟨oname, priv⟩ := j
  simp only at hname hpriv
  subst hpriv
  have hcount : ¬ (1000 < files.length) := by omega
  constructor
  · intro hany
    simp only [findPackages, hval, if_neg hcount, addRootPackage, hname, hnm, hvalid,
      hany, Bool.not_false, Bool.and_true, ne_eq, not_false_eq_true, Bool.true_and]
    simp
  · intro hany
    simp only [findPackages, hval, if_neg hcount, addRootPackage, hname, hnm, hvalid,
      hany, Bool.not_true, Bool.and_false, ne_eq, not_false_eq_true, Bool.true_and]
    simp

/-- Witness for C9: the root package `"rootpkg"` is prepended before the
scanned entry when its name is new, and the root entry for the name
`"bar"` already discovered in a subdirectory is suppressed. -/
theorem C9_witness :
    findPackages "/" "/work" [⟨"/work/a/package.json", some ⟨some "bar", false⟩⟩]
      (some ⟨some "rootpkg", false⟩) =
      .ok (("rootpkg", "/work") ::
        scanPackages "/" "/work" [⟨"/work/a/package.json", some ⟨some "bar", false⟩⟩]) ∧
    findPackages "/" "/work" [⟨"/work/a/package.json", some ⟨some "bar", false⟩⟩]
      (some ⟨some "bar", false⟩) =
      .ok (scanPackages "/" "/work" [⟨"/work/a/package.json", some ⟨some "bar", false⟩⟩]) :=
  ⟨(C9_discovery_root_dedup.2 "/" "/work" "/work"
      [⟨"/work/a/package.json", some ⟨some "bar", false⟩⟩] ⟨some "rootpkg", false⟩ "rootpkg"
      (by decide) (by decide) rfl (by decide) rfl (by decide)).1 (by decide),
   (C9_discovery_root_dedup.2 "/" "/work" "/work"
      [⟨"/work/a/package.json", some ⟨some "bar", false⟩⟩] ⟨some "bar", false⟩ "bar"
      (by decide) (by decide) rfl (by decide) rfl (by decide)).2 (by decide)⟩

end Changesets
